import Mathlib

/-!
# SimpleQuaternion and SimpleTransform (fcl/transform.h)

A shallow embedding of the rotation and rigid-transform classes declared in
`fcl/transform.h`, and of the sampling loop of `interp_ccd_Test` in
`test/test_core_conservative_advancement.cpp`.  The scalar types `FCL_REAL` and
`BVH_REAL` are embedded as an arbitrary linearly ordered field `K` with exact
arithmetic; the square root used by the matrix-to-quaternion conversion is an
explicit argument `sqrt : K → K`; the `unsigned int` loop counter wraps at `2^32`.
-/

namespace fcl

/-! ## Vec3f and Matrix3f -/

/-- Modelled from the spec: the type `Vec3f` of `fcl/vec_3f.h`, a vector of three
scalars indexed `[0]`, `[1]`, `[2]`. -/
@[ext]
structure Vec3f (K : Type) where
  x : K
  y : K
  z : K
deriving DecidableEq

/-- Modelled from the spec: the type `Matrix3f` of `fcl/matrix_3f.h`, a 3×3 matrix
whose entry `R(i, j)` is the field `mij`. -/
@[ext]
structure Matrix3f (K : Type) where
  m00 : K
  m01 : K
  m02 : K
  m10 : K
  m11 : K
  m12 : K
  m20 : K
  m21 : K
  m22 : K
deriving DecidableEq

variable {K : Type} [LinearOrderedField K]

/-- Modelled from the spec: `Vec3f::setValue(0.0)`, every component zero. -/
def Vec3f.zero : Vec3f K := ⟨0, 0, 0⟩

/-- Modelled from the spec: `Vec3f::operator+`, componentwise sum. -/
def Vec3f.add (a b : Vec3f K) : Vec3f K := ⟨a.x + b.x, a.y + b.y, a.z + b.z⟩

/-- Modelled from the spec: `Vec3f::operator-` (binary), componentwise difference. -/
def Vec3f.sub (a b : Vec3f K) : Vec3f K := ⟨a.x - b.x, a.y - b.y, a.z - b.z⟩

/-- Modelled from the spec: `Vec3f::operator-` (unary), componentwise negation. -/
def Vec3f.neg (a : Vec3f K) : Vec3f K := ⟨-a.x, -a.y, -a.z⟩

/-- Modelled from the spec: `Matrix3f::setIdentity()`, the identity matrix. -/
def Matrix3f.identity : Matrix3f K := ⟨1, 0, 0, 0, 1, 0, 0, 0, 1⟩

/-- Modelled from the spec: `transpose(R)` of `fcl/matrix_3f.h`. -/
def Matrix3f.transpose (R : Matrix3f K) : Matrix3f K :=
  ⟨R.m00, R.m10, R.m20, R.m01, R.m11, R.m21, R.m02, R.m12, R.m22⟩

/-- Modelled from the spec: `Matrix3f::operator*(const Vec3f&)`, matrix times column
vector. -/
def Matrix3f.mulVec (R : Matrix3f K) (v : Vec3f K) : Vec3f K :=
  ⟨R.m00 * v.x + R.m01 * v.y + R.m02 * v.z,
   R.m10 * v.x + R.m11 * v.y + R.m12 * v.z,
   R.m20 * v.x + R.m21 * v.y + R.m22 * v.z⟩

/-- Modelled from the spec: `Matrix3f::operator*(const Matrix3f&)`, the matrix
product. -/
def Matrix3f.mul (A B : Matrix3f K) : Matrix3f K :=
  ⟨A.m00 * B.m00 + A.m01 * B.m10 + A.m02 * B.m20,
   A.m00 * B.m01 + A.m01 * B.m11 + A.m02 * B.m21,
   A.m00 * B.m02 + A.m01 * B.m12 + A.m02 * B.m22,
   A.m10 * B.m00 + A.m11 * B.m10 + A.m12 * B.m20,
   A.m10 * B.m01 + A.m11 * B.m11 + A.m12 * B.m21,
   A.m10 * B.m02 + A.m11 * B.m12 + A.m12 * B.m22,
   A.m20 * B.m00 + A.m21 * B.m10 + A.m22 * B.m20,
   A.m20 * B.m01 + A.m21 * B.m11 + A.m22 * B.m21,
   A.m20 * B.m02 + A.m21 * B.m12 + A.m22 * B.m22⟩

/-- Modelled from the spec: `Matrix3f::transposeTimes(const Matrix3f&)`, the product
of the transpose of the receiver with the argument. -/
def Matrix3f.transposeTimes (A B : Matrix3f K) : Matrix3f K :=
  ⟨A.m00 * B.m00 + A.m10 * B.m10 + A.m20 * B.m20,
   A.m00 * B.m01 + A.m10 * B.m11 + A.m20 * B.m21,
   A.m00 * B.m02 + A.m10 * B.m12 + A.m20 * B.m22,
   A.m01 * B.m00 + A.m11 * B.m10 + A.m21 * B.m20,
   A.m01 * B.m01 + A.m11 * B.m11 + A.m21 * B.m21,
   A.m01 * B.m02 + A.m11 * B.m12 + A.m21 * B.m22,
   A.m02 * B.m00 + A.m12 * B.m10 + A.m22 * B.m20,
   A.m02 * B.m01 + A.m12 * B.m11 + A.m22 * B.m21,
   A.m02 * B.m02 + A.m12 * B.m12 + A.m22 * B.m22⟩

/-- Modelled from the spec: `Matrix3f::transposeTimes(const Vec3f&)`, the transpose
of the receiver times a column vector. -/
def Matrix3f.transposeTimesVec (A : Matrix3f K) (v : Vec3f K) : Vec3f K :=
  ⟨A.m00 * v.x + A.m10 * v.y + A.m20 * v.z,
   A.m01 * v.x + A.m11 * v.y + A.m21 * v.z,
   A.m02 * v.x + A.m12 * v.y + A.m22 * v.z⟩

/-- The determinant of a 3×3 matrix, by expansion along the first row. -/
def Matrix3f.det (R : Matrix3f K) : K :=
  R.m00 * (R.m11 * R.m22 - R.m12 * R.m21)
    - R.m01 * (R.m10 * R.m22 - R.m12 * R.m20)
    + R.m02 * (R.m10 * R.m21 - R.m11 * R.m20)

/-- A proper rotation matrix: orthonormal columns and determinant one. -/
def Matrix3f.IsRotation (R : Matrix3f K) : Prop :=
  R.transposeTimes R = Matrix3f.identity ∧ R.det = 1

/-! ## SimpleQuaternion -/

/-- The class `SimpleQuaternion`: `data[0..3]` are `w`, `x`, `y`, `z`. -/
@[ext]
structure SimpleQuaternion (K : Type) where
  w : K
  x : K
  y : K
  z : K
deriving DecidableEq

namespace SimpleQuaternion

/-- The default constructor `SimpleQuaternion()`: data = (1, 0, 0, 0). -/
def default : SimpleQuaternion K := ⟨1, 0, 0, 0⟩

/-- The method `isIdentity()`: exact comparison of the four components. -/
def isIdentity (q : SimpleQuaternion K) : Bool :=
  decide (q.w = 1) && decide (q.x = 0) && decide (q.y = 0) && decide (q.z = 0)

/-- Squared length of a quaternion. -/
def norm2 (q : SimpleQuaternion K) : K := q.w * q.w + q.x * q.x + q.y * q.y + q.z * q.z

/-- Modelled from the spec: `SimpleQuaternion::operator*(const SimpleQuaternion&)`,
whose body is not in the header; the quaternion (Hamilton) product, "Composition
q1*q2". -/
def mul (a b : SimpleQuaternion K) : SimpleQuaternion K :=
  ⟨a.w * b.w - a.x * b.x - a.y * b.y - a.z * b.z,
   a.w * b.x + a.x * b.w + a.y * b.z - a.z * b.y,
   a.w * b.y - a.x * b.z + a.y * b.w + a.z * b.x,
   a.w * b.z + a.x * b.y - a.y * b.x + a.z * b.w⟩

/-- Modelled from the spec: `SimpleQuaternion::conj()`, whose body is not in the
header; the conjugate negates the vector part. -/
def conj (q : SimpleQuaternion K) : SimpleQuaternion K := ⟨q.w, -q.x, -q.y, -q.z⟩

/-- Modelled from the spec: `SimpleQuaternion::transform(const Vec3f&)`, whose body
is not in the header; "standard quaternion sandwich product": the vector part of
`q * (0, v) * conj q`. -/
def transform (q : SimpleQuaternion K) (v : Vec3f K) : Vec3f K :=
  let r := (q.mul ⟨0, v.x, v.y, v.z⟩).mul q.conj
  ⟨r.x, r.y, r.z⟩

/-- Modelled from the spec: `SimpleQuaternion::toRotation(Matrix3f&)`, whose body is
not in the header; the "closed-form conversion" of a rotation quaternion to its
matrix. -/
def toRotation (q : SimpleQuaternion K) : Matrix3f K :=
  let twoX := 2 * q.x
  let twoY := 2 * q.y
  let twoZ := 2 * q.z
  let twoWX := twoX * q.w
  let twoWY := twoY * q.w
  let twoWZ := twoZ * q.w
  let twoXX := twoX * q.x
  let twoXY := twoY * q.x
  let twoXZ := twoZ * q.x
  let twoYY := twoY * q.y
  let twoYZ := twoZ * q.y
  let twoZZ := twoZ * q.z
  ⟨1 - (twoYY + twoZZ), twoXY - twoWZ, twoXZ + twoWY,
   twoXY + twoWZ, 1 - (twoXX + twoZZ), twoYZ - twoWX,
   twoXZ - twoWY, twoYZ + twoWX, 1 - (twoXX + twoYY)⟩

/-- Modelled from the spec: `SimpleQuaternion::fromRotation(const Matrix3f&)`, whose
body is not in the header; "standard matrix-to-quaternion extraction" that picks
"the numerically stable branch (largest of w², x², y², z² derived from matrix trace
and diagonal)".  The four candidates are `4w²`, `4x²`, `4y²`, `4z²`; the component
of the chosen branch is half the square root of its candidate and the other three
are read off the off-diagonal entries. -/
def fromRotation (sqrt : K → K) (R : Matrix3f K) : SimpleQuaternion K :=
  let fourW2 := 1 + R.m00 + R.m11 + R.m22
  let fourX2 := 1 + R.m00 - R.m11 - R.m22
  let fourY2 := 1 - R.m00 + R.m11 - R.m22
  let fourZ2 := 1 - R.m00 - R.m11 + R.m22
  if fourX2 ≤ fourW2 ∧ fourY2 ≤ fourW2 ∧ fourZ2 ≤ fourW2 then
    let root := sqrt fourW2
    let s := (1 / 2) / root
    ⟨(1 / 2) * root, (R.m21 - R.m12) * s, (R.m02 - R.m20) * s, (R.m10 - R.m01) * s⟩
  else if fourY2 ≤ fourX2 ∧ fourZ2 ≤ fourX2 then
    let root := sqrt fourX2
    let s := (1 / 2) / root
    ⟨(R.m21 - R.m12) * s, (1 / 2) * root, (R.m10 + R.m01) * s, (R.m20 + R.m02) * s⟩
  else if fourZ2 ≤ fourY2 then
    let root := sqrt fourY2
    let s := (1 / 2) / root
    ⟨(R.m02 - R.m20) * s, (R.m01 + R.m10) * s, (1 / 2) * root, (R.m21 + R.m12) * s⟩
  else
    let root := sqrt fourZ2
    let s := (1 / 2) / root
    ⟨(R.m10 - R.m01) * s, (R.m02 + R.m20) * s, (R.m12 + R.m21) * s, (1 / 2) * root⟩

end SimpleQuaternion

/-! ## SimpleTransform -/

/-- The class `SimpleTransform`: rotation matrix `R`, translation `T` and the
quaternion `q` kept for `R`. -/
@[ext]
structure SimpleTransform (K : Type) where
  R : Matrix3f K
  T : Vec3f K
  q : SimpleQuaternion K
deriving DecidableEq

namespace SimpleTransform

/-- The method `setIdentity()`: `R.setIdentity(); T.setValue(0.0); q = SimpleQuaternion()`. -/
def setIdentity (_t : SimpleTransform K) : SimpleTransform K :=
  ⟨Matrix3f.identity, Vec3f.zero, SimpleQuaternion.default⟩

/-- The default constructor `SimpleTransform()`: calls `setIdentity()` on the fresh
object, whose members are default-constructed. -/
def default : SimpleTransform K :=
  setIdentity ⟨⟨0, 0, 0, 0, 0, 0, 0, 0, 0⟩, ⟨0, 0, 0⟩, SimpleQuaternion.default⟩

/-- The constructor `SimpleTransform(const Matrix3f& R_, const Vec3f& T_)`. -/
def fromRT (sqrt : K → K) (R_ : Matrix3f K) (T_ : Vec3f K) : SimpleTransform K :=
  ⟨R_, T_, SimpleQuaternion.fromRotation sqrt R_⟩

/-- The constructor `SimpleTransform(const Matrix3f& R_)`. -/
def fromR (sqrt : K → K) (R_ : Matrix3f K) : SimpleTransform K :=
  ⟨R_, Vec3f.zero, SimpleQuaternion.fromRotation sqrt R_⟩

/-- The constructor `SimpleTransform(const Vec3f& T_)`. -/
def fromT (T_ : Vec3f K) : SimpleTransform K :=
  ⟨Matrix3f.identity, T_, SimpleQuaternion.default⟩

/-- The accessor `getTranslation()`. -/
def getTranslation (t : SimpleTransform K) : Vec3f K := t.T

/-- The accessor `getRotation()`. -/
def getRotation (t : SimpleTransform K) : Matrix3f K := t.R

/-- The accessor `getQuatRotation()`. -/
def getQuatRotation (t : SimpleTransform K) : SimpleQuaternion K := t.q

/-- The overload `setTransform(const Matrix3f& R_, const Vec3f& T_)`. -/
def setTransform (sqrt : K → K) (_t : SimpleTransform K) (R_ : Matrix3f K) (T_ : Vec3f K) :
    SimpleTransform K :=
  ⟨R_, T_, SimpleQuaternion.fromRotation sqrt R_⟩

/-- The overload `setTransform(const SimpleQuaternion& q_, const Vec3f& T_)`. -/
def setTransformQuat (_t : SimpleTransform K) (q_ : SimpleQuaternion K) (T_ : Vec3f K) :
    SimpleTransform K :=
  ⟨q_.toRotation, T_, q_⟩

/-- The method `setRotation(const Matrix3f& R_)`. -/
def setRotation (sqrt : K → K) (t : SimpleTransform K) (R_ : Matrix3f K) : SimpleTransform K :=
  ⟨R_, t.T, SimpleQuaternion.fromRotation sqrt R_⟩

/-- The method `setTranslation(const Vec3f& T_)`. -/
def setTranslation (t : SimpleTransform K) (T_ : Vec3f K) : SimpleTransform K :=
  ⟨t.R, T_, t.q⟩

/-- The method `setQuatRotation(const SimpleQuaternion& q_)`. -/
def setQuatRotation (t : SimpleTransform K) (q_ : SimpleQuaternion K) : SimpleTransform K :=
  ⟨q_.toRotation, t.T, q_⟩

/-- The method `transform(const Vec3f& v)`: `q.transform(v) + T`. -/
def transform (t : SimpleTransform K) (v : Vec3f K) : Vec3f K :=
  (t.q.transform v).add t.T

/-- The method `inverse()`: `Rinv = transpose(R); SimpleTransform(Rinv, Rinv * (-T))`. -/
def inverse (sqrt : K → K) (t : SimpleTransform K) : SimpleTransform K :=
  let Rinv := t.R.transpose
  fromRT sqrt Rinv (Rinv.mulVec t.T.neg)

/-- The method `inverseTimes(other)`:
`SimpleTransform(R.transposeTimes(other.R), R.transposeTimes(other.T - T))`. -/
def inverseTimes (sqrt : K → K) (t other : SimpleTransform K) : SimpleTransform K :=
  let v := other.T.sub t.T
  fromRT sqrt (t.R.transposeTimes other.R) (t.R.transposeTimesVec v)

/-- The operator `*=`: the translation is updated first, with the old quaternion,
then the quaternion, then the matrix from the new quaternion. -/
def mulAssign (t other : SimpleTransform K) : SimpleTransform K :=
  let T1 := (t.q.transform other.T).add t.T
  let q1 := t.q.mul other.q
  ⟨q1.toRotation, T1, q1⟩

/-- The operator `*`: a default transform `t` receives the product quaternion, its
matrix and the translation `q.transform(other.T) + T`. -/
def mul (a other : SimpleTransform K) : SimpleTransform K :=
  let q_new := a.q.mul other.q
  let t : SimpleTransform K := default
  let t1 : SimpleTransform K := ⟨t.R, t.T, q_new⟩
  let t2 : SimpleTransform K := ⟨q_new.toRotation, t1.T, t1.q⟩
  ⟨t2.R, (a.q.transform other.T).add a.T, t2.q⟩

/-- The method `isIdentity()`: exact comparison of the nine matrix entries and the
three translation components. -/
def isIdentity (t : SimpleTransform K) : Bool :=
  decide (t.R.m00 = 1) && decide (t.R.m01 = 0) && decide (t.R.m02 = 0) &&
  decide (t.R.m10 = 0) && decide (t.R.m11 = 1) && decide (t.R.m12 = 0) &&
  decide (t.R.m20 = 0) && decide (t.R.m21 = 0) && decide (t.R.m22 = 1) &&
  decide (t.T.x = 0) && decide (t.T.y = 0) && decide (t.T.z = 0)

end SimpleTransform

/-- The matrix of the linear map `v ↦ q * (0, v) * conj q`; a proof device relating
`SimpleQuaternion.transform` to `SimpleQuaternion.toRotation`. -/
def sandwichMatrix (q : SimpleQuaternion K) : Matrix3f K :=
  ⟨q.w * q.w + q.x * q.x - q.y * q.y - q.z * q.z, 2 * q.x * q.y - 2 * q.w * q.z,
   2 * q.x * q.z + 2 * q.w * q.y,
   2 * q.x * q.y + 2 * q.w * q.z, q.w * q.w - q.x * q.x + q.y * q.y - q.z * q.z,
   2 * q.y * q.z - 2 * q.w * q.x,
   2 * q.x * q.z - 2 * q.w * q.y, 2 * q.y * q.z + 2 * q.w * q.x,
   q.w * q.w - q.x * q.x - q.y * q.y + q.z * q.z⟩

/-- Matrix and quaternion of a transform are synchronized: `getRotation()` is the
matrix that `toRotation` produces from `getQuatRotation()`. -/
def InSync (t : SimpleTransform K) : Prop :=
  t.getRotation = t.getQuatRotation.toRotation

/-- The quaternion `q` represents the rotation matrix `R`: it is a rotation (unit)
quaternion and `toRotation` converts it to `R`. -/
def Represents (q : SimpleQuaternion K) (R : Matrix3f K) : Prop :=
  q.norm2 = 1 ∧ q.toRotation = R

/-! ## Entrywise facts about proper rotations -/

/-- The entrywise consequences of being a proper rotation: orthonormal columns,
orthonormal rows, and every entry equal to its cofactor. -/
structure RotEqs (R : Matrix3f K) : Prop where
  c00 : R.m00 * R.m00 + R.m10 * R.m10 + R.m20 * R.m20 = 1
  c01 : R.m00 * R.m01 + R.m10 * R.m11 + R.m20 * R.m21 = 0
  c02 : R.m00 * R.m02 + R.m10 * R.m12 + R.m20 * R.m22 = 0
  c11 : R.m01 * R.m01 + R.m11 * R.m11 + R.m21 * R.m21 = 1
  c12 : R.m01 * R.m02 + R.m11 * R.m12 + R.m21 * R.m22 = 0
  c22 : R.m02 * R.m02 + R.m12 * R.m12 + R.m22 * R.m22 = 1
  k00 : R.m00 = R.m11 * R.m22 - R.m12 * R.m21
  k01 : R.m01 = R.m12 * R.m20 - R.m10 * R.m22
  k02 : R.m02 = R.m10 * R.m21 - R.m11 * R.m20
  k10 : R.m10 = R.m02 * R.m21 - R.m01 * R.m22
  k11 : R.m11 = R.m00 * R.m22 - R.m02 * R.m20
  k12 : R.m12 = R.m01 * R.m20 - R.m00 * R.m21
  k20 : R.m20 = R.m01 * R.m12 - R.m02 * R.m11
  k21 : R.m21 = R.m02 * R.m10 - R.m00 * R.m12
  k22 : R.m22 = R.m00 * R.m11 - R.m01 * R.m10
  r00 : R.m00 * R.m00 + R.m01 * R.m01 + R.m02 * R.m02 = 1
  r01 : R.m00 * R.m10 + R.m01 * R.m11 + R.m02 * R.m12 = 0
  r02 : R.m00 * R.m20 + R.m01 * R.m21 + R.m02 * R.m22 = 0
  r11 : R.m10 * R.m10 + R.m11 * R.m11 + R.m12 * R.m12 = 1
  r12 : R.m10 * R.m20 + R.m11 * R.m21 + R.m12 * R.m22 = 0
  r22 : R.m20 * R.m20 + R.m21 * R.m21 + R.m22 * R.m22 = 1

/-- The products of quaternion components that a proper rotation matrix determines:
with `W = 4w²`, `X = 4x²`, `Y = 4y²`, `Z = 4z²` read off the diagonal, the
off-diagonal sums and differences are `4wx`, `4wy`, `4wz`, `4xy`, `4xz`, `4yz`. -/
structure QuadEqs (R : Matrix3f K) : Prop where
  wx2 : (R.m21 - R.m12) * (R.m21 - R.m12)
    = (1 + R.m00 + R.m11 + R.m22) * (1 + R.m00 - R.m11 - R.m22)
  wy2 : (R.m02 - R.m20) * (R.m02 - R.m20)
    = (1 + R.m00 + R.m11 + R.m22) * (1 - R.m00 + R.m11 - R.m22)
  wz2 : (R.m10 - R.m01) * (R.m10 - R.m01)
    = (1 + R.m00 + R.m11 + R.m22) * (1 - R.m00 - R.m11 + R.m22)
  xy2 : (R.m10 + R.m01) * (R.m10 + R.m01)
    = (1 + R.m00 - R.m11 - R.m22) * (1 - R.m00 + R.m11 - R.m22)
  xz2 : (R.m02 + R.m20) * (R.m02 + R.m20)
    = (1 + R.m00 - R.m11 - R.m22) * (1 - R.m00 - R.m11 + R.m22)
  yz2 : (R.m21 + R.m12) * (R.m21 + R.m12)
    = (1 - R.m00 + R.m11 - R.m22) * (1 - R.m00 - R.m11 + R.m22)
  wx_wy : (R.m21 - R.m12) * (R.m02 - R.m20) = (1 + R.m00 + R.m11 + R.m22) * (R.m10 + R.m01)
  wx_wz : (R.m21 - R.m12) * (R.m10 - R.m01) = (1 + R.m00 + R.m11 + R.m22) * (R.m02 + R.m20)
  wy_wz : (R.m02 - R.m20) * (R.m10 - R.m01) = (1 + R.m00 + R.m11 + R.m22) * (R.m21 + R.m12)
  wx_xy : (R.m21 - R.m12) * (R.m10 + R.m01) = (1 + R.m00 - R.m11 - R.m22) * (R.m02 - R.m20)
  wx_xz : (R.m21 - R.m12) * (R.m02 + R.m20) = (1 + R.m00 - R.m11 - R.m22) * (R.m10 - R.m01)
  xy_xz : (R.m10 + R.m01) * (R.m02 + R.m20) = (1 + R.m00 - R.m11 - R.m22) * (R.m21 + R.m12)
  wy_xy : (R.m02 - R.m20) * (R.m10 + R.m01) = (1 - R.m00 + R.m11 - R.m22) * (R.m21 - R.m12)
  wy_yz : (R.m02 - R.m20) * (R.m21 + R.m12) = (1 - R.m00 + R.m11 - R.m22) * (R.m10 - R.m01)
  xy_yz : (R.m10 + R.m01) * (R.m21 + R.m12) = (1 - R.m00 + R.m11 - R.m22) * (R.m02 + R.m20)
  wz_xz : (R.m10 - R.m01) * (R.m02 + R.m20) = (1 - R.m00 - R.m11 + R.m22) * (R.m21 - R.m12)
  wz_yz : (R.m10 - R.m01) * (R.m21 + R.m12) = (1 - R.m00 - R.m11 + R.m22) * (R.m02 - R.m20)
  xz_yz : (R.m02 + R.m20) * (R.m21 + R.m12) = (1 - R.m00 - R.m11 + R.m22) * (R.m10 + R.m01)

/-! ## Sample transforms -/

/-- A sample pose: the turn by a third of a revolution about the axis (1, 1, 1),
stored with its unit quaternion, and the translation (1, 2, 3). -/
def sampleTurn : SimpleTransform K :=
  ⟨⟨0, 0, 1, 1, 0, 0, 0, 1, 0⟩, ⟨1, 2, 3⟩, ⟨1 / 2, 1 / 2, 1 / 2, 1 / 2⟩⟩

/-- A sample pose: the half turn about the x axis, stored with its unit quaternion,
and the translation (4, 5, 6). -/
def sampleFlip : SimpleTransform K :=
  ⟨⟨1, 0, 0, 0, -1, 0, 0, 0, -1⟩, ⟨4, 5, 6⟩, ⟨0, 1, 0, 0⟩⟩

/-- A sample pose: the half turn about the z axis, stored with its unit quaternion,
and the translation (0, -1, 2). -/
def sampleSpin : SimpleTransform K :=
  ⟨⟨-1, 0, 0, 0, -1, 0, 0, 0, 1⟩, ⟨0, -1, 2⟩, ⟨0, 0, 0, 1⟩⟩

/-- The largest value of the 32-bit type `unsigned int` of the loop counter `i` and of
the parameter `nsamples`. -/
def UINT_MAX : Nat := 4294967295

/-- The sample parameter `curt = i / (BVH_REAL)nsamples` of loop iteration `i`. -/
def curt (nsamples i : Nat) : K := (i : K) / (nsamples : K)

/-- What a run of `interp_ccd_Test` has produced: the value returned (`none` while
the loop is still running), the out-parameter `toc`, and the parameters handed to
`motion1.integrate`, in call order. -/
structure SamplingRun (K : Type) where
  ret : Option Bool
  toc : K
  integrated : List K

/-- The loop `for(unsigned int i = 0; i <= nsamples; ++i)` of `interp_ccd_Test`,
started at counter `i` and run for at most `fuel` iterations.  The parameter
`overlap` stands for the collaborators that are not part of the harness: its value
at `curt` is `node.pairs.size() > 0` after `motion1.integrate(curt)`, the two
`setTransform` calls and `collide(&node)`.  The increment `++i` wraps at
`UINT_MAX`; when the guard fails the function returns `false` and `toc` keeps the
value it had. -/
def interp_ccd_loop (overlap : K → Bool) (nsamples : Nat) (toc : K) :
    Nat → Nat → List K → SamplingRun K
  | 0, _, log => ⟨none, toc, log⟩
  | fuel + 1, i, log =>
    if i ≤ nsamples then
      if overlap (curt nsamples i) then
        ⟨some true, curt nsamples i, log ++ [curt nsamples i]⟩
      else
        interp_ccd_loop overlap nsamples toc fuel ((i + 1) % (UINT_MAX + 1))
          (log ++ [curt nsamples i])
    else ⟨some false, toc, log⟩

/-- The function `interp_ccd_Test`: the loop from `i = 0`, with `toc` holding the
caller's value on entry. -/
def interp_ccd_Test (fuel : Nat) (overlap : K → Bool) (nsamples : Nat) (toc : K) :
    SamplingRun K :=
  interp_ccd_loop overlap nsamples toc fuel 0 []

/-! ## Quaternion algebra -/

theorem quat_mul_assoc (a b c : SimpleQuaternion K) : (a.mul b).mul c = a.mul (b.mul c) := by
  ext <;> simp only [SimpleQuaternion.mul] <;> ring

theorem quat_transform_mul (a b : SimpleQuaternion K) (v : Vec3f K) :
    (a.mul b).transform v = a.transform (b.transform v) := by
  ext <;> simp only [SimpleQuaternion.transform, SimpleQuaternion.mul, SimpleQuaternion.conj]
    <;> ring

theorem quat_transform_add (a : SimpleQuaternion K) (u v : Vec3f K) :
    a.transform (u.add v) = (a.transform u).add (a.transform v) := by
  ext <;> simp only [SimpleQuaternion.transform, SimpleQuaternion.mul, SimpleQuaternion.conj,
    Vec3f.add] <;> ring

theorem vec_add_assoc (a b c : Vec3f K) : (a.add b).add c = a.add (b.add c) := by
  ext <;> simp only [Vec3f.add] <;> ring

/-! ## Proper rotation matrices -/

theorem IsRotation.eqs {R : Matrix3f K} (hR : R.IsRotation) : RotEqs R := by
  obtain ⟨hO, hdet⟩ := hR
  obtain ⟨a, b, c, d, e, f, g, h, i⟩ := R
  simp only [Matrix3f.transposeTimes, Matrix3f.identity, Matrix3f.mk.injEq] at hO
  simp only [Matrix3f.det] at hdet
  obtain ⟨h00, h01, h02, -, h11, h12, -, -, h22⟩ := hO
  have k00 : a = e * i - f * h := by
    linear_combination (e * i - f * h) * h00 + (f * g - d * i) * h01
      + (d * h - e * g) * h02 - a * hdet
  have k01 : b = f * g - d * i := by
    linear_combination (e * i - f * h) * h01 + (f * g - d * i) * h11
      + (d * h - e * g) * h12 - b * hdet
  have k02 : c = d * h - e * g := by
    linear_combination (e * i - f * h) * h02 + (f * g - d * i) * h12
      + (d * h - e * g) * h22 - c * hdet
  have k10 : d = c * h - b * i := by
    linear_combination (c * h - b * i) * h00 + (a * i - c * g) * h01
      + (b * g - a * h) * h02 - d * hdet
  have k11 : e = a * i - c * g := by
    linear_combination (c * h - b * i) * h01 + (a * i - c * g) * h11
      + (b * g - a * h) * h12 - e * hdet
  have k12 : f = b * g - a * h := by
    linear_combination (c * h - b * i) * h02 + (a * i - c * g) * h12
      + (b * g - a * h) * h22 - f * hdet
  have k20 : g = b * f - c * e := by
    linear_combination (b * f - c * e) * h00 + (c * d - a * f) * h01
      + (a * e - b * d) * h02 - g * hdet
  have k21 : h = c * d - a * f := by
    linear_combination (b * f - c * e) * h01 + (c * d - a * f) * h11
      + (a * e - b * d) * h12 - h * hdet
  have k22 : i = a * e - b * d := by
    linear_combination (b * f - c * e) * h02 + (c * d - a * f) * h12
      + (a * e - b * d) * h22 - i * hdet
  refine ⟨h00, h01, h02, h11, h12, h22, k00, k01, k02, k10, k11, k12, k20, k21, k22,
    ?_, ?_, ?_, ?_, ?_, ?_⟩ <;> simp only
  · linear_combination a * k00 + b * k01 + c * k02 + hdet
  · linear_combination a * k10 + b * k11 + c * k12
  · linear_combination a * k20 + b * k21 + c * k22
  · linear_combination d * k10 + e * k11 + f * k12 + hdet
  · linear_combination d * k20 + e * k21 + f * k22
  · linear_combination g * k20 + h * k21 + i * k22 + hdet

theorem RotEqs.quad {R : Matrix3f K} (E : RotEqs R) : QuadEqs R := by
  obtain ⟨c00, c01, c02, c11, c12, c22, k00, k01, k02, k10, k11, k12, k20, k21, k22,
    r00, r01, r02, r11, r12, r22⟩ := E
  constructor <;>
    linarith [c00, c01, c02, c11, c12, c22, k00, k01, k02, k10, k11, k12, k20, k21, k22,
      r00, r01, r02, r11, r12, r22]

/-! ## Matrix to quaternion and back -/

/-- A quaternion whose ten component products agree with the entries of `R` (as in
`QuadEqs`) has matrix `R` and unit length. -/
theorem quat_of_quad (w x y z : K) (R : Matrix3f K)
    (hw : 4 * w * w = 1 + R.m00 + R.m11 + R.m22)
    (hx : 4 * x * x = 1 + R.m00 - R.m11 - R.m22)
    (hy : 4 * y * y = 1 - R.m00 + R.m11 - R.m22)
    (hz : 4 * z * z = 1 - R.m00 - R.m11 + R.m22)
    (hwx : 4 * w * x = R.m21 - R.m12) (hwy : 4 * w * y = R.m02 - R.m20)
    (hwz : 4 * w * z = R.m10 - R.m01) (hxy : 4 * x * y = R.m10 + R.m01)
    (hxz : 4 * x * z = R.m02 + R.m20) (hyz : 4 * y * z = R.m21 + R.m12) :
    (⟨w, x, y, z⟩ : SimpleQuaternion K).toRotation = R
      ∧ (⟨w, x, y, z⟩ : SimpleQuaternion K).norm2 = 1 := by
  refine ⟨?_, ?_⟩
  · ext <;> simp only [SimpleQuaternion.toRotation] <;> linarith
  · simp only [SimpleQuaternion.norm2]; linarith

/-- One branch of the extraction: the leading component is `root / 2` with
`root * root = D`, the other three are numerators `P1`, `P2`, `P3` scaled by
`s = (1/2) / root`. -/
theorem branch_eqs (r s D P1 P2 P3 D1 D2 D3 N12 N13 N23 : K)
    (hr : r * r = D) (hs : s * r = 1 / 2)
    (h1 : P1 * P1 = D * D1) (h2 : P2 * P2 = D * D2) (h3 : P3 * P3 = D * D3)
    (h12 : P1 * P2 = D * N12) (h13 : P1 * P3 = D * N13) (h23 : P2 * P3 = D * N23) :
    4 * (1 / 2 * r) * (1 / 2 * r) = D ∧ 4 * (P1 * s) * (P1 * s) = D1
      ∧ 4 * (P2 * s) * (P2 * s) = D2 ∧ 4 * (P3 * s) * (P3 * s) = D3
      ∧ 4 * (1 / 2 * r) * (P1 * s) = P1 ∧ 4 * (1 / 2 * r) * (P2 * s) = P2
      ∧ 4 * (1 / 2 * r) * (P3 * s) = P3 ∧ 4 * (P1 * s) * (P2 * s) = N12
      ∧ 4 * (P1 * s) * (P3 * s) = N13 ∧ 4 * (P2 * s) * (P3 * s) = N23 := by
  have hsD : s * s * D = 1 / 4 := by linear_combination (s * r + 1 / 2) * hs - s * s * hr
  refine ⟨?_, ?_, ?_, ?_, ?_, ?_, ?_, ?_, ?_, ?_⟩
  · linear_combination hr
  · linear_combination 4 * s * s * h1 + 4 * D1 * hsD
  · linear_combination 4 * s * s * h2 + 4 * D2 * hsD
  · linear_combination 4 * s * s * h3 + 4 * D3 * hsD
  · linear_combination 2 * P1 * hs
  · linear_combination 2 * P2 * hs
  · linear_combination 2 * P3 * hs
  · linear_combination 4 * s * s * h12 + 4 * N12 * hsD
  · linear_combination 4 * s * s * h13 + 4 * N13 * hsD
  · linear_combination 4 * s * s * h23 + 4 * N23 * hsD

/-- The scale factor of a branch: `((1/2) / root) * root = 1/2` when the radicand is
positive. -/
theorem branch_scale (sqrt : K → K) (hsqrt : ∀ x : K, 0 ≤ x → sqrt x * sqrt x = x)
    (D : K) (hD : 0 < D) : sqrt D * sqrt D = D ∧ (1 / 2) / sqrt D * sqrt D = 1 / 2 := by
  have hr : sqrt D * sqrt D = D := hsqrt D hD.le
  have hne : sqrt D ≠ 0 := by
    intro h0
    rw [h0, mul_zero] at hr
    exact absurd hr hD.ne
  exact ⟨hr, div_mul_cancel₀ _ hne⟩

/-- For a proper rotation matrix the extracted quaternion converts back to the
matrix and has unit length. -/
theorem fromRotation_spec (sqrt : K → K) (hsqrt : ∀ x : K, 0 ≤ x → sqrt x * sqrt x = x)
    (R : Matrix3f K) (hR : R.IsRotation) :
    (SimpleQuaternion.fromRotation sqrt R).toRotation = R
      ∧ (SimpleQuaternion.fromRotation sqrt R).norm2 = 1 := by
  have Q := (IsRotation.eqs hR).quad
  simp only [SimpleQuaternion.fromRotation]
  split_ifs with hW hX hY
  · obtain ⟨h1, h2, h3⟩ := hW
    obtain ⟨hr, hs⟩ := branch_scale sqrt hsqrt (1 + R.m00 + R.m11 + R.m22) (by linarith)
    obtain ⟨e0, e1, e2, e3, e01, e02, e03, e12, e13, e23⟩ :=
      branch_eqs _ _ _ (R.m21 - R.m12) (R.m02 - R.m20) (R.m10 - R.m01) _ _ _ _ _ _ hr hs
        Q.wx2 Q.wy2 Q.wz2 Q.wx_wy Q.wx_wz Q.wy_wz
    exact quat_of_quad _ _ _ _ R e0 e1 e2 e3 e01 e02 e03 e12 e13 e23
  · obtain ⟨h1, h2⟩ := hX
    have hpos : 0 < 1 + R.m00 - R.m11 - R.m22 := by
      by_contra hle
      exact hW ⟨by linarith, by linarith, by linarith⟩
    obtain ⟨hr, hs⟩ := branch_scale sqrt hsqrt (1 + R.m00 - R.m11 - R.m22) hpos
    obtain ⟨e0, e1, e2, e3, e01, e02, e03, e12, e13, e23⟩ :=
      branch_eqs _ _ _ (R.m21 - R.m12) (R.m10 + R.m01) (R.m20 + R.m02)
        (1 + R.m00 + R.m11 + R.m22) (1 - R.m00 + R.m11 - R.m22) (1 - R.m00 - R.m11 + R.m22)
        (R.m02 - R.m20) (R.m10 - R.m01) (R.m21 + R.m12) hr hs
        (by linear_combination Q.wx2) (by linear_combination Q.xy2)
        (by linear_combination Q.xz2) (by linear_combination Q.wx_xy)
        (by linear_combination Q.wx_xz) (by linear_combination Q.xy_xz)
    exact quat_of_quad _ _ _ _ R (by linear_combination e1) (by linear_combination e0)
      (by linear_combination e2) (by linear_combination e3) (by linear_combination e01)
      (by linear_combination e12) (by linear_combination e13) (by linear_combination e02)
      (by linear_combination e03) (by linear_combination e23)
  · have hpos : 0 < 1 - R.m00 + R.m11 - R.m22 := by
      by_contra hle
      have hXneg : 1 + R.m00 - R.m11 - R.m22 < 0 := by
        by_contra hXle
        exact hX ⟨by linarith, by linarith⟩
      exact hW ⟨by linarith, by linarith, by linarith⟩
    obtain ⟨hr, hs⟩ := branch_scale sqrt hsqrt (1 - R.m00 + R.m11 - R.m22) hpos
    obtain ⟨e0, e1, e2, e3, e01, e02, e03, e12, e13, e23⟩ :=
      branch_eqs _ _ _ (R.m02 - R.m20) (R.m01 + R.m10) (R.m21 + R.m12)
        (1 + R.m00 + R.m11 + R.m22) (1 + R.m00 - R.m11 - R.m22) (1 - R.m00 - R.m11 + R.m22)
        (R.m21 - R.m12) (R.m10 - R.m01) (R.m02 + R.m20) hr hs
        (by linear_combination Q.wy2) (by linear_combination Q.xy2)
        (by linear_combination Q.yz2) (by linear_combination Q.wy_xy)
        (by linear_combination Q.wy_yz) (by linear_combination Q.xy_yz)
    exact quat_of_quad _ _ _ _ R (by linear_combination e1) (by linear_combination e2)
      (by linear_combination e0) (by linear_combination e3) (by linear_combination e12)
      (by linear_combination e01) (by linear_combination e13) (by linear_combination e02)
      (by linear_combination e23) (by linear_combination e03)
  · have hYZ : 1 - R.m00 + R.m11 - R.m22 < 1 - R.m00 - R.m11 + R.m22 := lt_of_not_ge hY
    have hpos : 0 < 1 - R.m00 - R.m11 + R.m22 := by
      by_contra hle
      have hXneg : 1 + R.m00 - R.m11 - R.m22 < 0 := by
        by_contra hXle
        exact hX ⟨by linarith, by linarith⟩
      exact hW ⟨by linarith, by linarith, by linarith⟩
    obtain ⟨hr, hs⟩ := branch_scale sqrt hsqrt (1 - R.m00 - R.m11 + R.m22) hpos
    obtain ⟨e0, e1, e2, e3, e01, e02, e03, e12, e13, e23⟩ :=
      branch_eqs _ _ _ (R.m10 - R.m01) (R.m02 + R.m20) (R.m12 + R.m21)
        (1 + R.m00 + R.m11 + R.m22) (1 + R.m00 - R.m11 - R.m22) (1 - R.m00 + R.m11 - R.m22)
        (R.m21 - R.m12) (R.m02 - R.m20) (R.m10 + R.m01) hr hs
        (by linear_combination Q.wz2) (by linear_combination Q.xz2)
        (by linear_combination Q.yz2) (by linear_combination Q.wz_xz)
        (by linear_combination Q.wz_yz) (by linear_combination Q.xz_yz)
    exact quat_of_quad _ _ _ _ R (by linear_combination e1) (by linear_combination e2)
      (by linear_combination e3) (by linear_combination e0) (by linear_combination e12)
      (by linear_combination e13) (by linear_combination e01) (by linear_combination e23)
      (by linear_combination e02) (by linear_combination e03)

/-! ## Quaternions as rotations -/

theorem transform_eq_sandwich (q : SimpleQuaternion K) (v : Vec3f K) :
    q.transform v = (sandwichMatrix q).mulVec v := by
  ext <;> simp only [SimpleQuaternion.transform, SimpleQuaternion.mul, SimpleQuaternion.conj,
    sandwichMatrix, Matrix3f.mulVec] <;> ring

theorem toRotation_eq_sandwich (q : SimpleQuaternion K) (hq : q.norm2 = 1) :
    q.toRotation = sandwichMatrix q := by
  simp only [SimpleQuaternion.norm2] at hq
  ext <;> simp only [SimpleQuaternion.toRotation, sandwichMatrix] <;> linarith

theorem sandwich_mul (a b : SimpleQuaternion K) :
    sandwichMatrix (a.mul b) = (sandwichMatrix a).mul (sandwichMatrix b) := by
  ext <;> simp only [sandwichMatrix, SimpleQuaternion.mul, Matrix3f.mul] <;> ring

theorem norm2_mul (a b : SimpleQuaternion K) : (a.mul b).norm2 = a.norm2 * b.norm2 := by
  simp only [SimpleQuaternion.norm2, SimpleQuaternion.mul]
  ring

theorem norm2_mul_unit (a b : SimpleQuaternion K) (ha : a.norm2 = 1) (hb : b.norm2 = 1) :
    (a.mul b).norm2 = 1 := by
  rw [norm2_mul, ha, hb, mul_one]

theorem toRotation_mul (a b : SimpleQuaternion K) (ha : a.norm2 = 1) (hb : b.norm2 = 1) :
    (a.mul b).toRotation = a.toRotation.mul b.toRotation := by
  rw [toRotation_eq_sandwich _ (norm2_mul_unit a b ha hb), toRotation_eq_sandwich a ha,
    toRotation_eq_sandwich b hb, sandwich_mul]

theorem transform_eq_mulVec (q : SimpleQuaternion K) (hq : q.norm2 = 1) (v : Vec3f K) :
    q.transform v = q.toRotation.mulVec v := by
  rw [toRotation_eq_sandwich q hq, transform_eq_sandwich]

/-! ## Matrix algebra -/

theorem transposeTimes_eq (A B : Matrix3f K) : A.transposeTimes B = A.transpose.mul B := rfl

theorem transposeTimesVec_eq (A : Matrix3f K) (v : Vec3f K) :
    A.transposeTimesVec v = A.transpose.mulVec v := rfl

theorem mulVec_mulVec (A B : Matrix3f K) (v : Vec3f K) :
    A.mulVec (B.mulVec v) = (A.mul B).mulVec v := by
  ext <;> simp only [Matrix3f.mulVec, Matrix3f.mul] <;> ring

theorem identity_mulVec (v : Vec3f K) : (Matrix3f.identity : Matrix3f K).mulVec v = v := by
  ext <;> simp [Matrix3f.mulVec, Matrix3f.identity]

theorem identity_mul (B : Matrix3f K) : (Matrix3f.identity : Matrix3f K).mul B = B := by
  ext <;> simp [Matrix3f.mul, Matrix3f.identity]

theorem mulVec_add (A : Matrix3f K) (u v : Vec3f K) :
    A.mulVec (u.add v) = (A.mulVec u).add (A.mulVec v) := by
  ext <;> simp only [Matrix3f.mulVec, Vec3f.add] <;> ring

theorem mulVec_neg_add (A : Matrix3f K) (u v : Vec3f K) :
    (A.mulVec u).add (A.mulVec v.neg) = A.mulVec (u.sub v) := by
  ext <;> simp only [Matrix3f.mulVec, Vec3f.add, Vec3f.neg, Vec3f.sub] <;> ring

theorem neg_add_self (v : Vec3f K) : v.neg.add v = Vec3f.zero := by
  ext <;> simp [Vec3f.neg, Vec3f.add, Vec3f.zero]

theorem mulVec_sub_self (A : Matrix3f K) (v : Vec3f K) :
    A.mulVec (v.sub v) = Vec3f.zero := by
  ext <;> simp [Matrix3f.mulVec, Vec3f.sub, Vec3f.zero]

theorem mul_transpose_of_rotation {R : Matrix3f K} (hR : R.IsRotation) :
    R.mul R.transpose = Matrix3f.identity := by
  have E := IsRotation.eqs hR
  ext <;> simp only [Matrix3f.mul, Matrix3f.transpose, Matrix3f.identity]
  · linarith [E.r00]
  · linarith [E.r01]
  · linarith [E.r02]
  · linarith [E.r01]
  · linarith [E.r11]
  · linarith [E.r12]
  · linarith [E.r02]
  · linarith [E.r12]
  · linarith [E.r22]

theorem transpose_mul_of_rotation {R : Matrix3f K} (hR : R.IsRotation) :
    R.transpose.mul R = Matrix3f.identity := hR.1

theorem transpose_isRotation {R : Matrix3f K} (hR : R.IsRotation) :
    R.transpose.IsRotation := by
  refine ⟨?_, ?_⟩
  · have h := mul_transpose_of_rotation hR
    rw [transposeTimes_eq]
    exact h
  · have h := hR.2
    simp only [Matrix3f.det, Matrix3f.transpose] at h ⊢
    linarith

theorem transposeTimes_mul_mul (A B : Matrix3f K) :
    (A.mul B).transposeTimes (A.mul B) = B.transposeTimes ((A.transposeTimes A).mul B) := by
  ext <;> simp only [Matrix3f.transposeTimes, Matrix3f.mul] <;> ring

theorem det_mul (A B : Matrix3f K) : (A.mul B).det = A.det * B.det := by
  simp only [Matrix3f.det, Matrix3f.mul]
  ring

theorem mul_isRotation {A B : Matrix3f K} (hA : A.IsRotation) (hB : B.IsRotation) :
    (A.mul B).IsRotation := by
  refine ⟨?_, ?_⟩
  · rw [transposeTimes_mul_mul, hA.1, identity_mul, hB.1]
  · rw [det_mul, hA.2, hB.2, mul_one]

theorem isIdentity_iff (t : SimpleTransform K) :
    t.isIdentity = true ↔ t.R = Matrix3f.identity ∧ t.T = Vec3f.zero := by
  simp only [SimpleTransform.isIdentity, Bool.and_eq_true, decide_eq_true_eq,
    Matrix3f.ext_iff, Vec3f.ext_iff, Matrix3f.identity, Vec3f.zero]
  tauto

theorem norm2_nonneg (q : SimpleQuaternion K) : 0 ≤ q.norm2 := by
  simp only [SimpleQuaternion.norm2]
  nlinarith [mul_self_nonneg q.w, mul_self_nonneg q.x, mul_self_nonneg q.y, mul_self_nonneg q.z]

/-- For a proper rotation matrix `R`, `Represents q R` says exactly that rotating a
vector by `q` is multiplying it by `R`. -/
theorem represents_iff_transform (q : SimpleQuaternion K) (R : Matrix3f K)
    (hR : R.IsRotation) :
    Represents q R ↔ ∀ v : Vec3f K, q.transform v = R.mulVec v := by
  constructor
  · rintro ⟨hn, hq⟩ v
    rw [transform_eq_mulVec q hn, hq]
  · intro h
    have hx := h ⟨1, 0, 0⟩
    have hy := h ⟨0, 1, 0⟩
    have hz := h ⟨0, 0, 1⟩
    rw [transform_eq_sandwich] at hx hy hz
    simp only [Matrix3f.mulVec, mul_one, mul_zero, add_zero, zero_add, Vec3f.mk.injEq] at hx hy hz
    have hS : sandwichMatrix q = R := by
      ext
      · exact hx.1
      · exact hy.1
      · exact hz.1
      · exact hx.2.1
      · exact hy.2.1
      · exact hz.2.1
      · exact hx.2.2
      · exact hy.2.2
      · exact hz.2.2
    have c00 := (IsRotation.eqs hR).c00
    rw [← hS] at c00
    simp only [sandwichMatrix] at c00
    have hsq : q.norm2 * q.norm2 = 1 := by
      simp only [SimpleQuaternion.norm2]
      linear_combination c00
    have hn : q.norm2 = 1 := by
      have h0 := norm2_nonneg q
      have hprod : (q.norm2 - 1) * (q.norm2 + 1) = 0 := by linear_combination hsq
      rcases mul_eq_zero.1 hprod with h1 | h1
      · linarith
      · linarith
    exact ⟨hn, by rw [toRotation_eq_sandwich q hn, hS]⟩

theorem toRotation_default :
    (SimpleQuaternion.default : SimpleQuaternion K).toRotation = Matrix3f.identity := by
  simp only [SimpleQuaternion.default, SimpleQuaternion.toRotation, Matrix3f.identity]
  ext <;> norm_num

theorem default_inSync : InSync (SimpleTransform.default : SimpleTransform K) :=
  toRotation_default.symm

/-! ## The real square root and the sample poses -/

theorem real_sqrt_law : ∀ x : ℝ, 0 ≤ x → Real.sqrt x * Real.sqrt x = x :=
  fun _ hx => Real.mul_self_sqrt hx

theorem sampleTurn_isRotation : (sampleTurn : SimpleTransform K).R.IsRotation := by
  refine ⟨?_, ?_⟩
  · ext <;> simp [sampleTurn, Matrix3f.transposeTimes, Matrix3f.identity]
  · simp [sampleTurn, Matrix3f.det]

theorem sampleTurn_unit : (sampleTurn : SimpleTransform K).q.norm2 = 1 := by
  simp only [sampleTurn, SimpleQuaternion.norm2]
  norm_num

theorem sampleTurn_inSync : InSync (sampleTurn : SimpleTransform K) := by
  simp only [InSync, SimpleTransform.getRotation, SimpleTransform.getQuatRotation, sampleTurn,
    SimpleQuaternion.toRotation]
  ext <;> norm_num

theorem sampleFlip_isRotation : (sampleFlip : SimpleTransform K).R.IsRotation := by
  refine ⟨?_, ?_⟩
  · ext <;> simp [sampleFlip, Matrix3f.transposeTimes, Matrix3f.identity]
  · simp [sampleFlip, Matrix3f.det]

theorem sampleFlip_unit : (sampleFlip : SimpleTransform K).q.norm2 = 1 := by
  simp [sampleFlip, SimpleQuaternion.norm2]

theorem sampleSpin_unit : (sampleSpin : SimpleTransform K).q.norm2 = 1 := by
  simp [sampleSpin, SimpleQuaternion.norm2]

/-! ## Composition -/

/-- C1: for transforms `A` and `B` with unit quaternions and every point `p`,
applying the composition `A * B` equals applying `B` and then `A`. -/
theorem mul_transform (A B : SimpleTransform K) (p : Vec3f K)
    (_hA : A.q.norm2 = 1) (_hB : B.q.norm2 = 1) :
    (A.mul B).transform p = A.transform (B.transform p) := by
  simp only [SimpleTransform.mul, SimpleTransform.transform]
  rw [quat_transform_mul, quat_transform_add, vec_add_assoc]

/-- Witness for C1 at the sample poses and the point (1, 0, 0). -/
theorem mul_transform_witness :
    (sampleTurn : SimpleTransform ℚ).q.norm2 = 1 ∧ (sampleFlip : SimpleTransform ℚ).q.norm2 = 1
      ∧ ((sampleTurn : SimpleTransform ℚ).mul sampleFlip).transform ⟨1, 0, 0⟩
        = (sampleTurn : SimpleTransform ℚ).transform (sampleFlip.transform ⟨1, 0, 0⟩) :=
  ⟨sampleTurn_unit, sampleFlip_unit,
    mul_transform sampleTurn sampleFlip ⟨1, 0, 0⟩ sampleTurn_unit sampleFlip_unit⟩

/-! ## Inverse -/

/-- C2: for a transform `A` whose matrix `R` is a proper rotation and whose quaternion
`q` represents `R`, `A * A.inverse()` and `A.inverse() * A` both pass `isIdentity()`. -/
theorem mul_inverse_isIdentity (sqrt : K → K)
    (hsqrt : ∀ x : K, 0 ≤ x → sqrt x * sqrt x = x) (A : SimpleTransform K)
    (hR : A.R.IsRotation) (hrep : Represents A.q A.R) :
    (A.mul (A.inverse sqrt)).isIdentity = true
      ∧ ((A.inverse sqrt).mul A).isIdentity = true := by
  obtain ⟨hq, hsync⟩ := hrep
  obtain ⟨hiR, hin⟩ := fromRotation_spec sqrt hsqrt A.R.transpose (transpose_isRotation hR)
  refine ⟨?_, ?_⟩
  · rw [isIdentity_iff]
    simp only [SimpleTransform.mul, SimpleTransform.inverse, SimpleTransform.fromRT]
    refine ⟨?_, ?_⟩
    · rw [toRotation_mul _ _ hq hin, hsync, hiR, mul_transpose_of_rotation hR]
    · rw [transform_eq_mulVec _ hq, hsync, mulVec_mulVec, mul_transpose_of_rotation hR,
        identity_mulVec, neg_add_self]
  · rw [isIdentity_iff]
    simp only [SimpleTransform.mul, SimpleTransform.inverse, SimpleTransform.fromRT]
    refine ⟨?_, ?_⟩
    · rw [toRotation_mul _ _ hin hq, hsync, hiR, transpose_mul_of_rotation hR]
    · rw [transform_eq_mulVec _ hin, hiR, mulVec_neg_add, mulVec_sub_self]

/-- Witness for C2 at the sample turn, with the real square root. -/
theorem mul_inverse_isIdentity_witness :
    (sampleTurn : SimpleTransform ℝ).R.IsRotation
      ∧ Represents (sampleTurn : SimpleTransform ℝ).q (sampleTurn : SimpleTransform ℝ).R
      ∧ ((sampleTurn : SimpleTransform ℝ).mul (sampleTurn.inverse Real.sqrt)).isIdentity = true
      ∧ (((sampleTurn : SimpleTransform ℝ).inverse Real.sqrt).mul sampleTurn).isIdentity
        = true :=
  ⟨sampleTurn_isRotation, ⟨sampleTurn_unit, sampleTurn_inSync.symm⟩,
    mul_inverse_isIdentity Real.sqrt real_sqrt_law sampleTurn sampleTurn_isRotation
      ⟨sampleTurn_unit, sampleTurn_inSync.symm⟩⟩

/-- C4: after every constructor and every mutator, and in the results of `*`,
`inverse()` and `inverseTimes()`, `getRotation()` equals `toRotation` of
`getQuatRotation()`, provided every matrix handed to a constructor or setter is a
proper rotation (`setTranslation` keeps a synchronized pair synchronized). -/
theorem constructors_mutators_inSync (sqrt : K → K)
    (hsqrt : ∀ x : K, 0 ≤ x → sqrt x * sqrt x = x) :
    InSync (SimpleTransform.default : SimpleTransform K)
      ∧ (∀ (R_ : Matrix3f K) (T_ : Vec3f K), R_.IsRotation →
          InSync (SimpleTransform.fromRT sqrt R_ T_))
      ∧ (∀ R_ : Matrix3f K, R_.IsRotation → InSync (SimpleTransform.fromR sqrt R_))
      ∧ (∀ T_ : Vec3f K, InSync (SimpleTransform.fromT T_))
      ∧ (∀ (t : SimpleTransform K) (R_ : Matrix3f K) (T_ : Vec3f K), R_.IsRotation →
          InSync (t.setTransform sqrt R_ T_))
      ∧ (∀ (t : SimpleTransform K) (q_ : SimpleQuaternion K) (T_ : Vec3f K),
          InSync (t.setTransformQuat q_ T_))
      ∧ (∀ (t : SimpleTransform K) (R_ : Matrix3f K), R_.IsRotation →
          InSync (t.setRotation sqrt R_))
      ∧ (∀ (t : SimpleTransform K) (T_ : Vec3f K), InSync t → InSync (t.setTranslation T_))
      ∧ (∀ (t : SimpleTransform K) (q_ : SimpleQuaternion K), InSync (t.setQuatRotation q_))
      ∧ (∀ t : SimpleTransform K, InSync t.setIdentity)
      ∧ (∀ t other : SimpleTransform K, InSync (t.mulAssign other))
      ∧ (∀ t other : SimpleTransform K, InSync (t.mul other))
      ∧ (∀ t : SimpleTransform K, t.R.transpose.IsRotation → InSync (t.inverse sqrt))
      ∧ (∀ t other : SimpleTransform K, (t.R.transposeTimes other.R).IsRotation →
          InSync (t.inverseTimes sqrt other)) := by
  have key : ∀ R_ : Matrix3f K, R_.IsRotation →
      R_ = (SimpleQuaternion.fromRotation sqrt R_).toRotation :=
    fun R_ hR => (fromRotation_spec sqrt hsqrt R_ hR).1.symm
  refine ⟨default_inSync, ?_, ?_, ?_, ?_, ?_, ?_, ?_, ?_, ?_, ?_, ?_, ?_, ?_⟩
  · intro R_ T_ hR
    exact key R_ hR
  · intro R_ hR
    exact key R_ hR
  · intro T_
    exact toRotation_default.symm
  · intro t R_ T_ hR
    exact key R_ hR
  · intro t q_ T_
    rfl
  · intro t R_ hR
    exact key R_ hR
  · intro t T_ ht
    exact ht
  · intro t q_
    rfl
  · intro t
    exact toRotation_default.symm
  · intro t other
    rfl
  · intro t other
    rfl
  · intro t hR
    exact key _ hR
  · intro t other hR
    exact key _ hR

/-- Witness for C4 with the real square root: the two-argument constructor, the
inverse and the relative transform at the sample poses. -/
theorem constructors_mutators_inSync_witness :
    (sampleTurn : SimpleTransform ℝ).R.IsRotation
      ∧ InSync (SimpleTransform.fromRT Real.sqrt (sampleTurn : SimpleTransform ℝ).R sampleTurn.T)
      ∧ InSync ((sampleTurn : SimpleTransform ℝ).inverse Real.sqrt)
      ∧ InSync ((sampleTurn : SimpleTransform ℝ).inverseTimes Real.sqrt sampleFlip) :=
  ⟨sampleTurn_isRotation,
    (constructors_mutators_inSync Real.sqrt real_sqrt_law).2.1 _ _ sampleTurn_isRotation,
    (constructors_mutators_inSync Real.sqrt real_sqrt_law).2.2.2.2.2.2.2.2.2.2.2.2.1 _
      (transpose_isRotation sampleTurn_isRotation),
    (constructors_mutators_inSync Real.sqrt real_sqrt_law).2.2.2.2.2.2.2.2.2.2.2.2.2 _ _
      (mul_isRotation (transpose_isRotation sampleTurn_isRotation) sampleFlip_isRotation)⟩

/-! ## Applying a transform -/

/-- C6: for a transform `A` whose matrix is a proper rotation, `A.inverseTimes(A)`
passes `isIdentity()`: its matrix `transpose(R) * R` is the identity and its
translation `transpose(R) * (T - T)` is zero. -/
theorem inverseTimes_self_isIdentity (sqrt : K → K) (A : SimpleTransform K)
    (hR : A.R.IsRotation) :
    (A.inverseTimes sqrt A).isIdentity = true
      ∧ (A.inverseTimes sqrt A).getRotation = Matrix3f.identity
      ∧ (A.inverseTimes sqrt A).getTranslation = Vec3f.zero := by
  have hRot : (A.inverseTimes sqrt A).R = Matrix3f.identity := hR.1
  have hTr : (A.inverseTimes sqrt A).T = Vec3f.zero := by
    simp only [SimpleTransform.inverseTimes, SimpleTransform.fromRT]
    rw [transposeTimesVec_eq, mulVec_sub_self]
  exact ⟨(isIdentity_iff _).2 ⟨hRot, hTr⟩, hRot, hTr⟩

/-- Witness for C6 at the sample turn, with the real square root. -/
theorem inverseTimes_self_isIdentity_witness :
    (sampleTurn : SimpleTransform ℝ).R.IsRotation
      ∧ ((sampleTurn : SimpleTransform ℝ).inverseTimes Real.sqrt sampleTurn).isIdentity = true :=
  ⟨sampleTurn_isRotation,
    (inverseTimes_self_isIdentity Real.sqrt sampleTurn sampleTurn_isRotation).1⟩

/-! ## Associativity -/

/-- C7: for transforms `A`, `B`, `C` with unit quaternions and every point `p`,
`((A * B) * C).transform(p) = (A * (B * C)).transform(p)`. -/
theorem mul_assoc_transform (A B C : SimpleTransform K) (p : Vec3f K)
    (_hA : A.q.norm2 = 1) (_hB : B.q.norm2 = 1) (_hC : C.q.norm2 = 1) :
    ((A.mul B).mul C).transform p = (A.mul (B.mul C)).transform p := by
  simp only [SimpleTransform.mul, SimpleTransform.transform]
  rw [quat_mul_assoc, quat_transform_mul A.q B.q C.T, quat_transform_add, vec_add_assoc]

/-- Witness for C7 at the three sample poses and the point (1, 0, 0). -/
theorem mul_assoc_transform_witness :
    (sampleTurn : SimpleTransform ℚ).q.norm2 = 1 ∧ (sampleFlip : SimpleTransform ℚ).q.norm2 = 1
      ∧ (sampleSpin : SimpleTransform ℚ).q.norm2 = 1
      ∧ (((sampleTurn : SimpleTransform ℚ).mul sampleFlip).mul sampleSpin).transform ⟨1, 0, 0⟩
        = ((sampleTurn : SimpleTransform ℚ).mul (sampleFlip.mul sampleSpin)).transform
          ⟨1, 0, 0⟩ :=
  ⟨sampleTurn_unit, sampleFlip_unit, sampleSpin_unit,
    mul_assoc_transform sampleTurn sampleFlip sampleSpin ⟨1, 0, 0⟩ sampleTurn_unit
      sampleFlip_unit sampleSpin_unit⟩

/-! ## Identity -/

/-- C8: `SimpleQuaternion::isIdentity()` is true exactly when `w = 1` and
`x = y = z = 0`; the default quaternion is (1, 0, 0, 0) and passes the test. -/
theorem quat_isIdentity_iff :
    (∀ q : SimpleQuaternion K, q.isIdentity = true ↔ q.w = 1 ∧ q.x = 0 ∧ q.y = 0 ∧ q.z = 0)
      ∧ (SimpleQuaternion.default : SimpleQuaternion K) = ⟨1, 0, 0, 0⟩
      ∧ (SimpleQuaternion.default : SimpleQuaternion K).isIdentity = true := by
  refine ⟨?_, rfl, ?_⟩
  · intro q
    simp only [SimpleQuaternion.isIdentity, Bool.and_eq_true, decide_eq_true_eq, and_assoc]
  · simp [SimpleQuaternion.isIdentity, SimpleQuaternion.default]

/-- C9: the default transform, and any transform after `setIdentity()`, passes
`isIdentity()`, has the identity quaternion and zero translation, and maps every
point to itself. -/
theorem default_is_identity :
    ((SimpleTransform.default : SimpleTransform K).isIdentity = true
        ∧ (SimpleTransform.default : SimpleTransform K).getQuatRotation.isIdentity = true
        ∧ (SimpleTransform.default : SimpleTransform K).getTranslation = ⟨0, 0, 0⟩
        ∧ ∀ p : Vec3f K, (SimpleTransform.default : SimpleTransform K).transform p = p)
      ∧ ∀ t : SimpleTransform K,
          t.setIdentity.isIdentity = true
            ∧ t.setIdentity.getQuatRotation.isIdentity = true
            ∧ t.setIdentity.getTranslation = ⟨0, 0, 0⟩
            ∧ ∀ p : Vec3f K, t.setIdentity.transform p = p := by
  have main : ∀ t : SimpleTransform K,
      t.setIdentity.isIdentity = true
        ∧ t.setIdentity.getQuatRotation.isIdentity = true
        ∧ t.setIdentity.getTranslation = ⟨0, 0, 0⟩
        ∧ ∀ p : Vec3f K, t.setIdentity.transform p = p := by
    intro t
    refine ⟨?_, ?_, rfl, ?_⟩
    · exact (isIdentity_iff _).2 ⟨rfl, rfl⟩
    · simp [SimpleTransform.setIdentity, SimpleTransform.getQuatRotation,
        SimpleQuaternion.isIdentity, SimpleQuaternion.default]
    · intro p
      simp only [SimpleTransform.setIdentity, SimpleTransform.transform,
        SimpleQuaternion.transform, SimpleQuaternion.mul, SimpleQuaternion.conj,
        SimpleQuaternion.default, Vec3f.add, Vec3f.zero]
      ext <;> simp
  exact ⟨main _, main⟩

/-! ## Round trip -/

/-- C10: for every proper rotation matrix `M`, converting `fromRotation(M)` back with
`toRotation` yields `M`. -/
theorem rotation_round_trip (sqrt : K → K) (hsqrt : ∀ x : K, 0 ≤ x → sqrt x * sqrt x = x)
    (M : Matrix3f K) (hM : M.IsRotation) :
    (SimpleQuaternion.fromRotation sqrt M).toRotation = M :=
  (fromRotation_spec sqrt hsqrt M hM).1

/-- Witness for C10 at the matrix of the sample turn, with the real square root. -/
theorem rotation_round_trip_witness :
    (sampleTurn : SimpleTransform ℝ).R.IsRotation
      ∧ (SimpleQuaternion.fromRotation Real.sqrt (sampleTurn : SimpleTransform ℝ).R).toRotation
        = (sampleTurn : SimpleTransform ℝ).R :=
  ⟨sampleTurn_isRotation,
    rotation_round_trip Real.sqrt real_sqrt_law _ sampleTurn_isRotation⟩

/-! ## In-place composition, double inverse, unit, setters -/

/-- C14: after `A *= B` the transform has the same translation, quaternion and
rotation matrix as the value `A * B` computed from the original `A`; the new
translation is `q.transform(B.T) + T` with the quaternion `q` of the original `A`. -/
theorem mulAssign_eq_mul (A B : SimpleTransform K) :
    (A.mulAssign B).getTranslation = (A.mul B).getTranslation
      ∧ (A.mulAssign B).getQuatRotation = (A.mul B).getQuatRotation
      ∧ (A.mulAssign B).getRotation = (A.mul B).getRotation
      ∧ (A.mulAssign B).getTranslation = (A.q.transform B.T).add A.T :=
  ⟨rfl, rfl, rfl, rfl⟩

/-- C15: for a transform `A` whose matrix is a proper rotation, `A.inverse().inverse()`
has the same rotation matrix and the same translation as `A`. -/
theorem inverse_inverse (sqrt : K → K) (A : SimpleTransform K) (hR : A.R.IsRotation) :
    ((A.inverse sqrt).inverse sqrt).getRotation = A.getRotation
      ∧ ((A.inverse sqrt).inverse sqrt).getTranslation = A.getTranslation := by
  refine ⟨rfl, ?_⟩
  have E := IsRotation.eqs hR
  simp only [SimpleTransform.getTranslation, SimpleTransform.inverse, SimpleTransform.fromRT,
    Matrix3f.transpose, Matrix3f.mulVec, Vec3f.neg]
  ext
  · simp only
    linear_combination A.T.x * E.r00 + A.T.y * E.r01 + A.T.z * E.r02
  · simp only
    linear_combination A.T.x * E.r01 + A.T.y * E.r11 + A.T.z * E.r12
  · simp only
    linear_combination A.T.x * E.r02 + A.T.y * E.r12 + A.T.z * E.r22

/-- Witness for C15 at the sample turn, with the real square root. -/
theorem inverse_inverse_witness :
    (sampleTurn : SimpleTransform ℝ).R.IsRotation
      ∧ (((sampleTurn : SimpleTransform ℝ).inverse Real.sqrt).inverse Real.sqrt).getRotation
        = (sampleTurn : SimpleTransform ℝ).getRotation
      ∧ (((sampleTurn : SimpleTransform ℝ).inverse Real.sqrt).inverse Real.sqrt).getTranslation
        = (sampleTurn : SimpleTransform ℝ).getTranslation :=
  ⟨sampleTurn_isRotation, inverse_inverse Real.sqrt sampleTurn sampleTurn_isRotation⟩

/-- C16: for a transform `A` in sync, `A * SimpleTransform()` and
`SimpleTransform() * A` both have the translation, the quaternion and the rotation
matrix of `A`. -/
theorem mul_default (A : SimpleTransform K) (hs : InSync A) :
    ((A.mul SimpleTransform.default).getTranslation = A.getTranslation
        ∧ (A.mul SimpleTransform.default).getQuatRotation = A.getQuatRotation
        ∧ (A.mul SimpleTransform.default).getRotation = A.getRotation)
      ∧ ((SimpleTransform.default.mul A).getTranslation = A.getTranslation
        ∧ (SimpleTransform.default.mul A).getQuatRotation = A.getQuatRotation
        ∧ (SimpleTransform.default.mul A).getRotation = A.getRotation) := by
  have hq1 : A.q.mul SimpleQuaternion.default = A.q := by
    ext <;> simp [SimpleQuaternion.mul, SimpleQuaternion.default]
  have hq2 : (SimpleQuaternion.default : SimpleQuaternion K).mul A.q = A.q := by
    ext <;> simp [SimpleQuaternion.mul, SimpleQuaternion.default]
  have hT1 : (A.q.transform Vec3f.zero).add A.T = A.T := by
    ext <;> simp [SimpleQuaternion.transform, SimpleQuaternion.mul, SimpleQuaternion.conj,
      Vec3f.add, Vec3f.zero]
  have hT2 : ((SimpleQuaternion.default : SimpleQuaternion K).transform A.T).add Vec3f.zero
      = A.T := by
    ext <;> simp [SimpleQuaternion.transform, SimpleQuaternion.mul, SimpleQuaternion.conj,
      SimpleQuaternion.default, Vec3f.add, Vec3f.zero]
  have hs' : A.q.toRotation = A.R := hs.symm
  refine ⟨⟨?_, ?_, ?_⟩, ⟨?_, ?_, ?_⟩⟩
  · exact hT1
  · exact hq1
  · show (A.q.mul SimpleQuaternion.default).toRotation = A.R
    rw [hq1, hs']
  · exact hT2
  · exact hq2
  · show ((SimpleQuaternion.default : SimpleQuaternion K).mul A.q).toRotation = A.R
    rw [hq2, hs']

/-- Witness for C16 at the sample turn. -/
theorem mul_default_witness :
    InSync (sampleTurn : SimpleTransform ℚ)
      ∧ ((sampleTurn : SimpleTransform ℚ).mul SimpleTransform.default).getRotation
        = (sampleTurn : SimpleTransform ℚ).getRotation
      ∧ ((SimpleTransform.default : SimpleTransform ℚ).mul sampleTurn).getRotation
        = (sampleTurn : SimpleTransform ℚ).getRotation :=
  ⟨sampleTurn_inSync, (mul_default sampleTurn sampleTurn_inSync).1.2.2,
    (mul_default sampleTurn sampleTurn_inSync).2.2.2⟩

/-- C17: `setTranslation(T_)` sets the translation to `T_` and leaves the rotation
matrix and the quaternion unchanged; `setRotation(R_)` and `setQuatRotation(q_)`
leave the translation unchanged. -/
theorem setters_frame (sqrt : K → K) (t : SimpleTransform K) (T_ : Vec3f K)
    (R_ : Matrix3f K) (q_ : SimpleQuaternion K) :
    ((t.setTranslation T_).getTranslation = T_
        ∧ (t.setTranslation T_).getRotation = t.getRotation
        ∧ (t.setTranslation T_).getQuatRotation = t.getQuatRotation)
      ∧ (t.setRotation sqrt R_).getTranslation = t.getTranslation
      ∧ (t.setQuatRotation q_).getTranslation = t.getTranslation :=
  ⟨⟨rfl, rfl, rfl⟩, rfl, rfl⟩

/-! ## The sampling harness -/

theorem curt_bounds (nsamples i : Nat) (hn : 1 ≤ nsamples) (hi : i ≤ nsamples) :
    (0 : K) ≤ curt nsamples i ∧ (curt nsamples i : K) ≤ 1 := by
  have hpos : (0 : K) < (nsamples : K) := by exact_mod_cast hn
  have hle : (i : K) ≤ (nsamples : K) := by exact_mod_cast hi
  refine ⟨?_, ?_⟩
  · exact div_nonneg (Nat.cast_nonneg i) hpos.le
  · exact (div_le_one hpos).2 hle

theorem curt_zero (nsamples : Nat) : (curt nsamples 0 : K) = 0 := by
  simp [curt]

theorem curt_last (nsamples : Nat) (hn : 1 ≤ nsamples) : (curt nsamples nsamples : K) = 1 := by
  have hpos : (0 : K) < (nsamples : K) := by exact_mod_cast hn
  exact div_self hpos.ne.symm

/-- The loop only appends to the record of parameters it was started with. -/
theorem loop_integrated_prefix (overlap : K → Bool) (nsamples : Nat) (toc : K) :
    ∀ (fuel i : Nat) (log : List K),
      ∃ l : List K, (interp_ccd_loop overlap nsamples toc fuel i log).integrated = log ++ l
        ∧ ∀ t ∈ l, ∃ j : Nat, j ≤ nsamples ∧ t = curt nsamples j := by
  intro fuel
  induction fuel with
  | zero =>
    intro i log
    exact ⟨[], by simp [interp_ccd_loop], by simp⟩
  | succ fuel ih =>
    intro i log
    by_cases hi : i ≤ nsamples
    · by_cases ho : overlap (curt nsamples i) = true
      · refine ⟨[curt nsamples i], by simp [interp_ccd_loop, hi, ho], ?_⟩
        intro t ht
        exact ⟨i, hi, by simpa using ht⟩
      · obtain ⟨l, hl, hmem⟩ := ih ((i + 1) % (UINT_MAX + 1)) (log ++ [curt nsamples i])
        refine ⟨curt nsamples i :: l, by simp [interp_ccd_loop, hi, ho, hl], ?_⟩
        intro t ht
        rcases List.mem_cons.1 ht with h | h
        · exact ⟨i, hi, h⟩
        · exact hmem t h
    · exact ⟨[], by simp [interp_ccd_loop, hi], by simp⟩

/-- A run that reaches the first overlapping sample `m` returns `true` with
`toc = curt m`. -/
theorem loop_hit (overlap : K → Bool) (nsamples : Nat) (toc : K) (m : Nat)
    (hm : m ≤ nsamples) (hmax : nsamples ≤ UINT_MAX) (hov : overlap (curt nsamples m) = true) :
    ∀ (fuel i : Nat) (log : List K), i ≤ m →
      (∀ j : Nat, i ≤ j → j < m → overlap (curt nsamples j) = false) →
      m + 1 - i ≤ fuel →
      (interp_ccd_loop overlap nsamples toc fuel i log).ret = some true
        ∧ (interp_ccd_loop overlap nsamples toc fuel i log).toc = curt nsamples m := by
  intro fuel
  induction fuel with
  | zero =>
    intro i log him _ hfuel
    omega
  | succ fuel ih =>
    intro i log him hbefore hfuel
    have hi : i ≤ nsamples := le_trans him hm
    by_cases heq : i = m
    · subst heq
      simp [interp_ccd_loop, hi, hov]
    · have hlt : i < m := lt_of_le_of_ne him heq
      have ho : overlap (curt nsamples i) = false := hbefore i le_rfl hlt
      have hwrap : (i + 1) % (UINT_MAX + 1) = i + 1 := by
        apply Nat.mod_eq_of_lt
        unfold UINT_MAX at hmax ⊢
        omega
      have hrec := ih (i + 1) (log ++ [curt nsamples i]) hlt
        (fun j hj hjm => hbefore j (by omega) hjm) (by omega)
      simpa [interp_ccd_loop, hi, ho, hwrap] using hrec

/-- Below `UINT_MAX`, a run over samples none of which overlaps returns `false` and
leaves `toc` as it was. -/
theorem loop_miss (overlap : K → Bool) (nsamples : Nat) (toc : K)
    (hmax : nsamples < UINT_MAX) :
    ∀ (fuel i : Nat) (log : List K), i ≤ nsamples + 1 →
      (∀ j : Nat, i ≤ j → j ≤ nsamples → overlap (curt nsamples j) = false) →
      nsamples + 2 - i ≤ fuel →
      (interp_ccd_loop overlap nsamples toc fuel i log).ret = some false
        ∧ (interp_ccd_loop overlap nsamples toc fuel i log).toc = toc := by
  intro fuel
  induction fuel with
  | zero =>
    intro i log hi _ hfuel
    omega
  | succ fuel ih =>
    intro i log hi hnone hfuel
    by_cases hin : i ≤ nsamples
    · have ho : overlap (curt nsamples i) = false := hnone i le_rfl hin
      have hwrap : (i + 1) % (UINT_MAX + 1) = i + 1 := by
        apply Nat.mod_eq_of_lt
        unfold UINT_MAX at hmax ⊢
        omega
      have hrec := ih (i + 1) (log ++ [curt nsamples i]) (by omega)
        (fun j hj hjn => hnone j (by omega) hjn) (by omega)
      simpa [interp_ccd_loop, hin, ho, hwrap] using hrec
    · simp [interp_ccd_loop, hin]

/-- With `nsamples = UINT_MAX` the guard `i <= nsamples` holds for every value of the
counter, so a run over samples none of which overlaps is still running after any
number of iterations. -/
theorem loop_uint_max (overlap : K → Bool) (toc : K) (hnone : ∀ t : K, overlap t = false) :
    ∀ (fuel i : Nat) (log : List K), i ≤ UINT_MAX →
      (interp_ccd_loop overlap UINT_MAX toc fuel i log).ret = none := by
  intro fuel
  induction fuel with
  | zero =>
    intro i log _
    rfl
  | succ fuel ih =>
    intro i log hi
    have hnext : (i + 1) % (UINT_MAX + 1) ≤ UINT_MAX :=
      Nat.lt_succ_iff.1 (Nat.mod_lt _ (Nat.succ_pos _))
    have hrec := ih ((i + 1) % (UINT_MAX + 1)) (log ++ [curt UINT_MAX i]) hnext
    simpa [interp_ccd_loop, hi, hnone] using hrec

/-- Below `UINT_MAX`, a run over samples none of which overlaps hands to
`motion1.integrate` exactly the remaining grid `curt i, ..., curt nsamples`. -/
theorem loop_miss_integrated (overlap : K → Bool) (nsamples : Nat) (toc : K)
    (hmax : nsamples < UINT_MAX) :
    ∀ (fuel i : Nat) (log : List K), i ≤ nsamples + 1 →
      (∀ j : Nat, i ≤ j → j ≤ nsamples → overlap (curt nsamples j) = false) →
      nsamples + 2 - i ≤ fuel →
      (interp_ccd_loop overlap nsamples toc fuel i log).integrated
        = log ++ (List.range' i (nsamples + 1 - i)).map (curt nsamples) := by
  intro fuel
  induction fuel with
  | zero =>
    intro i log hi _ hfuel
    omega
  | succ fuel ih =>
    intro i log hi hnone hfuel
    by_cases hin : i ≤ nsamples
    · have ho : overlap (curt nsamples i) = false := hnone i le_rfl hin
      have hwrap : (i + 1) % (UINT_MAX + 1) = i + 1 := by
        apply Nat.mod_eq_of_lt
        unfold UINT_MAX at hmax ⊢
        omega
      have hrec := ih (i + 1) (log ++ [curt nsamples i]) (by omega)
        (fun j hj hjn => hnone j (by omega) hjn) (by omega)
      have hlen : nsamples + 1 - i = (nsamples + 1 - (i + 1)) + 1 := by omega
      rw [hlen, List.range'_succ]
      simpa [interp_ccd_loop, hin, ho, hwrap] using hrec
    · have hzero : nsamples + 1 - i = 0 := by omega
      simp [interp_ccd_loop, hin, hzero]

/-- Below `UINT_MAX` the harness reports the first sampled hit: for
`1 ≤ nsamples < UINT_MAX` and enough iterations it returns `true` exactly when some
sample overlaps, then with `toc` the parameter of the least overlapping index, and
it returns `false` with `toc` untouched otherwise. -/
theorem interp_ccd_Test_first_hit (overlap : K → Bool) (nsamples : Nat) (toc : K)
    (fuel : Nat) (_hn : 1 ≤ nsamples) (hmax : nsamples < UINT_MAX)
    (hfuel : nsamples + 2 ≤ fuel) :
    ((interp_ccd_Test fuel overlap nsamples toc).ret = some true
        ↔ ∃ i : Nat, i ≤ nsamples ∧ overlap (curt nsamples i) = true)
      ∧ (∀ m : Nat, m ≤ nsamples → overlap (curt nsamples m) = true →
          (∀ j : Nat, j < m → overlap (curt nsamples j) = false) →
          (interp_ccd_Test fuel overlap nsamples toc).ret = some true
            ∧ (interp_ccd_Test fuel overlap nsamples toc).toc = curt nsamples m)
      ∧ ((∀ i : Nat, i ≤ nsamples → overlap (curt nsamples i) = false) →
          (interp_ccd_Test fuel overlap nsamples toc).ret = some false
            ∧ (interp_ccd_Test fuel overlap nsamples toc).toc = toc) := by
  have hhit : ∀ m : Nat, m ≤ nsamples → overlap (curt nsamples m) = true →
      (∀ j : Nat, j < m → overlap (curt nsamples j) = false) →
      (interp_ccd_Test fuel overlap nsamples toc).ret = some true
        ∧ (interp_ccd_Test fuel overlap nsamples toc).toc = curt nsamples m := by
    intro m hm hov hbefore
    exact loop_hit overlap nsamples toc m hm hmax.le hov fuel 0 [] (Nat.zero_le m)
      (fun j _ hjm => hbefore j hjm) (by omega)
  have hmiss : (∀ i : Nat, i ≤ nsamples → overlap (curt nsamples i) = false) →
      (interp_ccd_Test fuel overlap nsamples toc).ret = some false
        ∧ (interp_ccd_Test fuel overlap nsamples toc).toc = toc := by
    intro hnone
    exact loop_miss overlap nsamples toc hmax fuel 0 [] (Nat.zero_le _)
      (fun j _ hjn => hnone j hjn) (by omega)
  refine ⟨⟨?_, ?_⟩, hhit, hmiss⟩
  · intro hret
    by_contra hex
    have hnone : ∀ i : Nat, i ≤ nsamples → overlap (curt nsamples i) = false := by
      intro i hi
      by_contra hne
      exact hex ⟨i, hi, by simpa using hne⟩
    rw [(hmiss hnone).1] at hret
    cases hret
  · intro hex
    classical
    have hfind := Nat.find_spec hex
    have hmin : ∀ j : Nat, j < Nat.find hex → overlap (curt nsamples j) = false := by
      intro j hj
      have hnot := Nat.find_min hex hj
      by_contra hne
      exact hnot ⟨by omega, by simpa using hne⟩
    exact (hhit (Nat.find hex) hfind.1 hfind.2 hmin).1

/-- C12: with `nsamples = UINT_MAX` and an overlap check that never fires, the loop
guard `i <= nsamples` holds for every value of the wrapping counter, so
`interp_ccd_Test` has not returned after any number of iterations; it never returns
`false`. -/
theorem interp_ccd_Test_uint_max_never_returns (toc : K) (fuel : Nat) :
    (interp_ccd_Test fuel (fun _ : K => false) UINT_MAX toc).ret = none :=
  loop_uint_max (fun _ : K => false) toc (fun _ => rfl) fuel 0 [] (Nat.zero_le _)

/-- C13: for `nsamples ≥ 1` every parameter `curt = i / nsamples`, `i = 0..nsamples`,
lies in [0, 1], the first is 0 and the last is 1; every parameter the harness hands
to `integrate` is one of these, the first one handed over is 0, a run without
overlap below `UINT_MAX` hands over the whole grid in order, and a reported `toc`
lies in [0, 1]. -/
theorem sampling_parameters_in_unit_interval (overlap : K → Bool) (nsamples : Nat) (toc : K)
    (hn : 1 ≤ nsamples) :
    (∀ i : Nat, i ≤ nsamples → (0 : K) ≤ curt nsamples i ∧ (curt nsamples i : K) ≤ 1)
      ∧ (curt nsamples 0 : K) = 0 ∧ (curt nsamples nsamples : K) = 1
      ∧ (∀ fuel : Nat, ∀ t ∈ (interp_ccd_Test fuel overlap nsamples toc).integrated,
          (∃ i : Nat, i ≤ nsamples ∧ t = curt nsamples i) ∧ 0 ≤ t ∧ t ≤ 1)
      ∧ (∀ fuel : Nat, 1 ≤ fuel →
          (interp_ccd_Test fuel overlap nsamples toc).integrated.head? = some 0)
      ∧ (nsamples < UINT_MAX →
          (∀ i : Nat, i ≤ nsamples → overlap (curt nsamples i) = false) →
          ∀ fuel : Nat, nsamples + 2 ≤ fuel →
            (interp_ccd_Test fuel overlap nsamples toc).integrated
              = (List.range (nsamples + 1)).map (curt nsamples))
      ∧ (∀ fuel : Nat, (interp_ccd_Test fuel overlap nsamples toc).ret = some true →
          0 ≤ (interp_ccd_Test fuel overlap nsamples toc).toc
            ∧ (interp_ccd_Test fuel overlap nsamples toc).toc ≤ 1) := by
  refine ⟨fun i hi => curt_bounds nsamples i hn hi, curt_zero nsamples,
    curt_last nsamples hn, ?_, ?_, ?_, ?_⟩
  · intro fuel t ht
    obtain ⟨l, hl, hmem⟩ := loop_integrated_prefix overlap nsamples toc fuel 0 []
    have ht' : t ∈ l := by
      have := ht
      simp only [interp_ccd_Test] at this
      rw [hl] at this
      simpa using this
    obtain ⟨j, hj, rfl⟩ := hmem t ht'
    exact ⟨⟨j, hj, rfl⟩, curt_bounds nsamples j hn hj⟩
  · intro fuel hfuel
    obtain ⟨k, rfl⟩ : ∃ k, fuel = k + 1 := ⟨fuel - 1, by omega⟩
    have hstep : interp_ccd_Test (k + 1) overlap nsamples toc
        = if overlap (curt nsamples 0) = true then
            ⟨some true, curt nsamples 0, [curt nsamples 0]⟩
          else interp_ccd_loop overlap nsamples toc k (1 % (UINT_MAX + 1))
            [curt nsamples 0] := by
      simp [interp_ccd_Test, interp_ccd_loop]
    by_cases ho : overlap (curt nsamples 0) = true
    · rw [hstep, if_pos ho]
      simp [curt_zero]
    · obtain ⟨l, hl, _⟩ := loop_integrated_prefix overlap nsamples toc k
        (1 % (UINT_MAX + 1)) [curt nsamples 0]
      rw [hstep, if_neg ho, hl]
      simp [curt_zero]
  · intro hmax hnone fuel hfuel
    have h := loop_miss_integrated overlap nsamples toc hmax fuel 0 [] (Nat.zero_le _)
      (fun j _ hjn => hnone j hjn) (by omega)
    simpa [interp_ccd_Test, List.range_eq_range'] using h
  · intro fuel hret
    have hcases : ∀ (f i : Nat) (log : List K),
        (interp_ccd_loop overlap nsamples toc f i log).ret = some true →
        ∃ j : Nat, j ≤ nsamples
          ∧ (interp_ccd_loop overlap nsamples toc f i log).toc = curt nsamples j := by
      intro f
      induction f with
      | zero =>
        intro i log h
        simp [interp_ccd_loop] at h
      | succ f ih =>
        intro i log h
        by_cases hi : i ≤ nsamples
        · by_cases ho : overlap (curt nsamples i) = true
          · exact ⟨i, hi, by simp [interp_ccd_loop, hi, ho]⟩
          · simp only [interp_ccd_loop, hi, if_true, ho] at h ⊢
            exact ih _ _ h
        · simp [interp_ccd_loop, hi] at h
    obtain ⟨j, hj, htoc⟩ := hcases fuel 0 [] hret
    have htoc' : (interp_ccd_Test fuel overlap nsamples toc).toc = curt nsamples j := htoc
    rw [htoc']
    exact curt_bounds nsamples j hn hj

/-- Witness for C13 with ten samples and an overlap check that fires from 3/10 on. -/
theorem sampling_parameters_in_unit_interval_witness :
    1 ≤ 10
      ∧ (∀ fuel : Nat, ∀ t ∈ (interp_ccd_Test fuel (fun t : ℚ => decide (3 / 10 ≤ t)) 10
            0).integrated, (∃ i : Nat, i ≤ 10 ∧ t = curt 10 i) ∧ 0 ≤ t ∧ t ≤ 1)
      ∧ (∀ fuel : Nat, (interp_ccd_Test fuel (fun t : ℚ => decide (3 / 10 ≤ t)) 10 0).ret
            = some true →
          0 ≤ (interp_ccd_Test fuel (fun t : ℚ => decide (3 / 10 ≤ t)) 10 0).toc
            ∧ (interp_ccd_Test fuel (fun t : ℚ => decide (3 / 10 ≤ t)) 10 0).toc ≤ 1) :=
  ⟨by decide,
    (sampling_parameters_in_unit_interval (fun t : ℚ => decide (3 / 10 ≤ t)) 10 0
      (by decide)).2.2.2.1,
    (sampling_parameters_in_unit_interval (fun t : ℚ => decide (3 / 10 ≤ t)) 10 0
      (by decide)).2.2.2.2.2.2⟩

end fcl
